import Mathlib

/-!
# Verification of the `ResourcesManager` core (neo-one server)

Shallow embedding of `src/packages/neo-one-server/src/ResourcesManager.js`.

JavaScript objects used as string-keyed maps (`_resourceAdapters`,
`_createTaskList`, ..., `_resourceDependents`) are embedded as association
lists with most-recent-binding-first lookup: property assignment is `upsert`
(cons), `delete obj[k]` is `eraseKey` (removes every binding), and property
read is `lookupA`.  TaskList objects are identified by allocation numbers:
every `new TaskList(...)` draws a fresh id from the `nextId` counter of the
manager state, so "the identical reference" of the source is "the identical
id" of the model.

The `TaskList` runtime itself (package `@neo-one/server-plugin`) is not part
of the given sources; where a claim depends on its execution order or its
lifecycle callbacks, those semantics are modelled from the spec (§4.1) and
the definitions say so in their doc comments.
-/

namespace NeoOne

/-- Association-list lookup: the JS property read `obj[k]`; the most recent
binding wins. -/
def lookupA {K V : Type} [DecidableEq K] : List (K × V) → K → Option V
  | [], _ => none
  | (k, v) :: rest, k' => if k' = k then some v else lookupA rest k'

/-- Association-list update: the JS property assignment `obj[k] = v`
(the new binding shadows any older one). -/
def upsert {K V : Type} [DecidableEq K] (l : List (K × V)) (k : K) (v : V) :
    List (K × V) :=
  (k, v) :: l

/-- Association-list removal: the JS `delete obj[k]` (drops every binding
of the key). -/
def eraseKey {K V : Type} [DecidableEq K] : List (K × V) → K → List (K × V)
  | [], _ => []
  | p :: rest, k => if p.1 = k then eraseKey rest k else p :: eraseKey rest k

instance {ε α : Type} [DecidableEq ε] [DecidableEq α] :
    DecidableEq (Except ε α) := fun x y =>
  match x, y with
  | .ok a, .ok b =>
    if h : a = b then isTrue (by rw [h]) else isFalse (by simp [h])
  | .error a, .error b =>
    if h : a = b then isTrue (by rw [h]) else isFalse (by simp [h])
  | .ok _, .error _ => isFalse (by simp)
  | .error _, .ok _ => isFalse (by simp)

/-- A `ResourceDependency` triple `{plugin, resourceType, name}`
(src/unnamed/part_000 and ResourcesManager.js). -/
structure ResourceDependency where
  plugin : String
  resourceType : String
  name : String
deriving DecidableEq, Repr

/-- The slice of `ResourceType.getCRUD()` the manager consults:
whether `start` / `stop` are declared (`start == null` checks at
ResourcesManager.js lines 571, 577, 724, 730) and `create.startOnCreate`
(line 294).  Presence of the optional entries is a `Bool`. -/
structure CRUD where
  startOnCreate : Bool
  start : Bool
  stop : Bool
deriving DecidableEq, Repr

/-- The `PluginManager.getResourcesManager({plugin, resourceType})` resolver,
restricted to what the dependency filters read from it: the target resource
type's CRUD metadata.  The spec (§6) requires the resolver to be total. -/
def PluginCRUD : Type := String → String → CRUD

/-- In-memory state of one `ResourcesManager` (constructor, lines 83-137).
`resourceAdapters` values are `Option Nat`: a binding `some none` is a JS
property holding `undefined` (as left by `setFromContext` when the context
carried no adapter), `some (some a)` holds adapter `a`.  `nextId` is the
TaskList allocation counter of the model. -/
structure MState where
  nextId : Nat
  resourceAdapters : List (String × Option Nat)
  resourceAdaptersStarted : List (String × Bool)
  directResourceDependents : List (String × List ResourceDependency)
  resourceDependents : List (String × List ResourceDependency)
  createTaskList : List (String × Nat)
  deleteTaskList : List (String × Nat)
  startTaskList : List (String × Nat)
  stopTaskList : List (String × Nat)
deriving DecidableEq, Repr

/-- The constructor's initial maps (lines 105-122): everything empty. -/
def initialState : MState :=
  ⟨0, [], [], [], [], [], [], [], []⟩

/-- The adapter visible at `name`: `this._resourceAdapters[name]`, with a
binding that holds `undefined` reading as absent (`!= null` in the source). -/
def getAdapter (st : MState) (name : String) : Option Nat :=
  (lookupA st.resourceAdapters name).getD none

/-- What an operation entry returns to its caller: the allocation id of the
TaskList it constructed and the `shouldSkip` flag it captured. -/
structure TaskListRef where
  id : Nat
  shouldSkip : Bool
deriving DecidableEq, Repr

/-- The two `ResourceNo*Error`s thrown synchronously by `start`/`stop`
(`./errors`, raised at lines 571-582 and 723-735). -/
inductive RMErr where
  | resourceNoStartError
  | resourceNoStopError
deriving DecidableEq, Repr

/-- Which compensation a lifecycle callback fires. -/
inductive CompOp where
  | compDelete
  | compStop
deriving DecidableEq, Repr

/-- A fire-and-forget compensation call: `this.delete(name, options)` or
`this.stop(name, options)` followed by `.toPromise().catch(() => {})`;
`swallowErrors` records the `.catch(() => {})`. -/
structure FireForget where
  op : CompOp
  name : String
  swallowErrors : Bool
deriving DecidableEq, Repr

/-- Entry bookkeeping of `create(name, options)` (lines 264-409): capture
`shouldSkip := this._createTaskList[name] != null` (line 274), construct a
new TaskList (line 318, modelled as drawing a fresh id), and register it
under `name` only when `!shouldSkip` (lines 404-406). -/
def create (st : MState) (name : String) : MState × TaskListRef :=
  let shouldSkip := (lookupA st.createTaskList name).isSome
  ({ st with
      nextId := st.nextId + 1,
      createTaskList :=
        if shouldSkip then st.createTaskList
        else upsert st.createTaskList name st.nextId },
   ⟨st.nextId, shouldSkip⟩)

/-- Entry bookkeeping of `delete(name, options)` (lines 411-540): capture
`shouldSkip := this._deleteTaskList[name] != null` (line 419), construct a
new TaskList (line 464), register it only when `!shouldSkip`
(lines 535-537). -/
def delete (st : MState) (name : String) : MState × TaskListRef :=
  let shouldSkip := (lookupA st.deleteTaskList name).isSome
  ({ st with
      nextId := st.nextId + 1,
      deleteTaskList :=
        if shouldSkip then st.deleteTaskList
        else upsert st.deleteTaskList name st.nextId },
   ⟨st.nextId, shouldSkip⟩)

/-- Entry of `start(name, options)` (lines 562-676): throw
`ResourceNoStartError` when the CRUD has no `start` (lines 571-576), then
`ResourceNoStopError` when it has no `stop` (lines 577-582); otherwise
capture `shouldSkip := this._startTaskList[name] != null` (line 584),
construct a new TaskList (line 591) and register it only when `!shouldSkip`
(lines 671-673). -/
def start (crud : CRUD) (st : MState) (name : String) :
    Except RMErr (MState × TaskListRef) :=
  if !crud.start then .error .resourceNoStartError
  else if !crud.stop then .error .resourceNoStopError
  else
    let shouldSkip := (lookupA st.startTaskList name).isSome
    .ok ({ st with
            nextId := st.nextId + 1,
            startTaskList :=
              if shouldSkip then st.startTaskList
              else upsert st.startTaskList name st.nextId },
         ⟨st.nextId, shouldSkip⟩)

/-- Entry of `stop(name, options)` (lines 715-822): the same two synchronous
throws, in the same order — `start == null` is checked first (lines 724-729),
then `stop == null` (lines 730-735); then capture
`shouldSkip := this._stopTaskList[name] != null` (line 737), construct a new
TaskList (line 760) and register it only when `!shouldSkip`
(lines 817-819). -/
def stop (crud : CRUD) (st : MState) (name : String) :
    Except RMErr (MState × TaskListRef) :=
  if !crud.start then .error .resourceNoStartError
  else if !crud.stop then .error .resourceNoStopError
  else
    let shouldSkip := (lookupA st.stopTaskList name).isSome
    .ok ({ st with
            nextId := st.nextId + 1,
            stopTaskList :=
              if shouldSkip then st.stopTaskList
              else upsert st.stopTaskList name st.nextId },
         ⟨st.nextId, shouldSkip⟩)

/-- `create`'s `onDone(failed)` callback (lines 393-402), with the
`shouldSkip` it captured at construction: when not a duplicate, clear
`createTaskList[name]` and, on failure, fire
`this.delete(name, options).toPromise().catch(() => {})`. -/
def createOnDone (name : String) (shouldSkip failed : Bool) (st : MState) :
    MState × Option FireForget :=
  if shouldSkip then (st, none)
  else ({ st with createTaskList := eraseKey st.createTaskList name },
        if failed then some ⟨.compDelete, name, true⟩ else none)

/-- `delete`'s `onDone` callback (lines 528-533): when not a duplicate,
clear `deleteTaskList[name]`; no compensation in any case. -/
def deleteOnDone (name : String) (shouldSkip : Bool) (st : MState) :
    MState × Option FireForget :=
  if shouldSkip then (st, none)
  else ({ st with deleteTaskList := eraseKey st.deleteTaskList name }, none)

/-- `start`'s `onDone(failed)` callback (lines 658-669), with its captured
`shouldSkip`: when not a duplicate, set
`this._resourceAdaptersStarted[name] = true` (line 660 — unconditionally,
before the `failed` test), clear `startTaskList[name]`, and on failure fire
`this.stop(name, options).toPromise().catch(() => {})`. -/
def startOnDone (name : String) (shouldSkip failed : Bool) (st : MState) :
    MState × Option FireForget :=
  if shouldSkip then (st, none)
  else ({ st with
            resourceAdaptersStarted := upsert st.resourceAdaptersStarted name true,
            startTaskList := eraseKey st.startTaskList name },
        if failed then some ⟨.compStop, name, true⟩ else none)

/-- `stop`'s `onDone` callback (lines 810-815): when not a duplicate, clear
`stopTaskList[name]`; no compensation. -/
def stopOnDone (name : String) (shouldSkip : Bool) (st : MState) :
    MState × Option FireForget :=
  if shouldSkip then (st, none)
  else ({ st with stopTaskList := eraseKey st.stopTaskList name }, none)

/-- `stop`'s `onComplete` callback (lines 801-809): on successful completion
set `this._resourceAdaptersStarted[name] = false`. -/
def stopOnComplete (name : String) (st : MState) : MState :=
  { st with resourceAdaptersStarted := upsert st.resourceAdaptersStarted name false }

/-- The dedup key of `_uniqueDeps` (lines 934-939): lodash `uniqBy` with the
iteratee `` `${plugin}:${resourceType}:${name}` ``. -/
def depKey (d : ResourceDependency) : String :=
  d.plugin ++ ":" ++ d.resourceType ++ ":" ++ d.name

/-- lodash `_.uniqBy deps key`: keep the first element for every distinct key
value, preserving order.  `seen` is the accumulated set of keys. -/
def uniqByKeys {β : Type} [DecidableEq β] (key : ResourceDependency → β) :
    List ResourceDependency → List β → List ResourceDependency
  | [], _ => []
  | d :: ds, seen =>
    if key d ∈ seen then uniqByKeys key ds seen
    else d :: uniqByKeys key ds (key d :: seen)

/-- `_uniqueDeps(deps)` (lines 934-939). -/
def uniqueDeps (deps : List ResourceDependency) : List ResourceDependency :=
  uniqByKeys depKey deps []

/-- Modelled from the spec: deduplication "by structural equality of
`(plugin, resourceType, name)`" (spec §4.5.3), i.e. `uniqBy` whose key is
the dependency itself.  Declared only to be compared with the source's
`uniqueDeps`. -/
def uniqueDepsStructural (deps : List ResourceDependency) :
    List ResourceDependency :=
  uniqByKeys (fun d => d) deps []

/-- The dependent list `delete` captures at entry (lines 459-463):
`_uniqueDeps((resourceDependents[name] || []).concat(directResourceDependents[name] || []))`. -/
def deleteDependents (st : MState) (name : String) : List ResourceDependency :=
  uniqueDeps ((lookupA st.resourceDependents name).getD [] ++
    (lookupA st.directResourceDependents name).getD [])

/-- A nested TaskList that delegates one operation per listed dependency to
its owning manager (`_deleteDeps` / `_startDeps` / `_stopDeps`), recorded as
the delegated list (in task order) and the `concurrent` flag. -/
structure DelegationList where
  delegated : List ResourceDependency
  concurrent : Bool
deriving DecidableEq, Repr

/-- `_deleteDeps(deps)` (lines 542-560): one `manager.delete(name, {})` task
per dependency, `concurrent: true`. -/
def deleteDeps (deps : List ResourceDependency) : DelegationList :=
  ⟨deps, true⟩

/-- `_startDeps(deps)` (lines 690-713): one `manager.start(name, {})` task
per dependency, `concurrent: false`. -/
def startDeps (deps : List ResourceDependency) : DelegationList :=
  ⟨deps, false⟩

/-- `_stopDeps(deps)` (lines 836-859): one `manager.stop(name, {})` task per
dependency, `concurrent: true`. -/
def stopDeps (deps : List ResourceDependency) : DelegationList :=
  ⟨deps, true⟩

/-- `_getStartDeps(deps)` (lines 678-688): keep the dependencies whose
resource type declares `start`. -/
def getStartDeps (pm : PluginCRUD) (deps : Option (List ResourceDependency)) :
    List ResourceDependency :=
  (deps.getD []).filter (fun d => (pm d.plugin d.resourceType).start)

/-- `_getStopDeps(deps)` (lines 824-834): keep the dependencies whose
resource type declares `stop`. -/
def getStopDeps (pm : PluginCRUD) (deps : Option (List ResourceDependency)) :
    List ResourceDependency :=
  (deps.getD []).filter (fun d => (pm d.plugin d.resourceType).stop)

/-- The dependent list `stop` captures at entry (line 756):
`_getStopDeps(this._resourceDependents[name])` — note: no `_uniqueDeps`. -/
def stopDependentsOf (pm : PluginCRUD) (st : MState) (name : String) :
    List ResourceDependency :=
  getStopDeps pm (lookupA st.resourceDependents name)

/-- `addDependent(name, dependent)` (lines 941-946): initialise the slot to
`[]` when absent, then `push` the dependent. -/
def addDependent (st : MState) (name : String) (dep : ResourceDependency) :
    MState :=
  { st with
      resourceDependents :=
        upsert st.resourceDependents name
          ((lookupA st.resourceDependents name).getD [] ++ [dep]) }

/-- An error object thrown by `fs.readJSON`, carrying its `code` property. -/
structure IOFailure where
  code : String
deriving DecidableEq, Repr

/-- `_readDeps(depsPath)` (lines 198-209), over the outcome `r` of
`fs.readJSON(depsPath)`: pass a successful parse through, turn an `ENOENT`
failure into `[]`, rethrow every other failure unchanged. -/
def readDeps (r : Except IOFailure (List ResourceDependency)) :
    Except IOFailure (List ResourceDependency) :=
  match r with
  | .ok deps => .ok deps
  | .error e => if e.code = "ENOENT" then .ok [] else .error e

/-- `_destroy(name, resourceAdapter)` (lines 881-898), with `r` the outcome
of `await resourceAdapter.destroy()`: the source deletes
`this._resourceAdapters[name]` *before* awaiting `destroy()`, so the
resulting state has the binding erased for every outcome `r`, and the
outcome itself propagates to the caller unchanged (`logInvoke` only logs). -/
def destroyAdapter (st : MState) (name : String) (r : Except Unit Unit) :
    MState × Except Unit Unit :=
  ({ st with resourceAdapters := eraseKey st.resourceAdapters name }, r)

/-- A `(plugin, resourceType)` pair: the key under which the
`PluginManager` resolves a `ResourcesManager`. -/
abbrev MKey := String × String

/-- The managers reachable through `PluginManager.getResourcesManager`,
keyed by `(plugin, resourceType)` (including the acting manager itself). -/
abbrev Server := List (MKey × MState)

/-- One `getResourcesManager({plugin, resourceType}).addDependent(name, dep)`
call: `none` models the resolver failing loudly on an unknown key. -/
def serverAddDependent (srv : Server) (k : MKey) (name : String)
    (dep : ResourceDependency) : Option Server :=
  match lookupA srv k with
  | none => none
  | some st => some (upsert srv k (addDependent st name dep))

/-- `_addDependents({name, dependencies})` (lines 913-932): for each
dependency, resolve its manager and register the inverse edge
`{plugin: selfPlugin, resourceType: selfType, name: selfName}` under the
dependency's name, in list order. -/
def addDependents (selfPlugin selfType selfName : String) :
    List ResourceDependency → Server → Option Server
  | [], srv => some srv
  | d :: rest, srv =>
    match serverAddDependent srv (d.plugin, d.resourceType) d.name
        ⟨selfPlugin, selfType, selfName⟩ with
    | none => none
    | some srv' => addDependents selfPlugin selfType selfName rest srv'

/-- The shared context of a `create` pipeline as `setFromContext` reads it
(lines 306-316): `ctx.resourceAdapter`, `ctx.dependencies`, `ctx.dependents`,
each possibly absent. -/
structure Ctx where
  resourceAdapter : Option Nat
  dependencies : Option (List ResourceDependency)
  dependents : Option (List ResourceDependency)
deriving DecidableEq, Repr

/-- The writes `setFromContext` performs on its own manager before
propagating (lines 309-312): install `ctx.resourceAdapter` (whatever it is,
possibly `undefined`) into `resourceAdapters[name]` and `ctx.dependents || []`
into `directResourceDependents[name]`. -/
def installFromContext (st : MState) (name : String) (ctx : Ctx) : MState :=
  { st with
      resourceAdapters := upsert st.resourceAdapters name ctx.resourceAdapter,
      directResourceDependents :=
        upsert st.directResourceDependents name (ctx.dependents.getD []) }

/-- `setFromContext(ctx)` of `create` (lines 305-316) for the manager at key
`k` of `srv`, with `set` the captured one-shot flag: when not yet set,
perform the self-manager writes of `installFromContext` and then propagate
`ctx.dependencies || []` through `_addDependents`. -/
def setFromContext (k : MKey) (name : String) (ctx : Ctx) (set : Bool)
    (srv : Server) : Option Server :=
  if set then some srv
  else
    match lookupA srv k with
    | none => none
    | some st =>
      addDependents k.1 k.2 name (ctx.dependencies.getD [])
        (upsert srv k (installFromContext st name ctx))

/-- The failure path of a `create` TaskList, modelled from the spec (§4.1):
when a task errors, `onError(error, ctx)` fires once with the current
context, then `onDone(true)` fires.  The source callbacks are `onError`
(lines 372-384: when not a duplicate, `setFromContext(ctx)`) and `onDone`
(lines 393-402, embedded as `createOnDone`).  `set` is the closure flag of
`setFromContext` at error time (`false` when the "Execute final setup" task
had not run). -/
def createFailurePath (k : MKey) (name : String) (ctx : Ctx)
    (set shouldSkip : Bool) (srv : Server) :
    Option (Server × Option FireForget) :=
  (if shouldSkip then some srv else setFromContext k name ctx set srv).bind
    (fun srv1 =>
      (lookupA srv1 k).map
        (fun st =>
          (upsert srv1 k (createOnDone name shouldSkip true st).1,
            (createOnDone name shouldSkip true st).2)))

/-- Events observable while a `start` pipeline executes: aborting an
in-flight stop (task 1), a delegated `manager.start` of one created child
beginning and settling (inside `_startDeps`), and the resource's own
`resourceAdapter.start(options)` being invoked (task 3). -/
inductive Ev where
  | abortStopEv
  | depStartBegin (d : ResourceDependency)
  | depStartEnd (d : ResourceDependency)
  | adapterStartBegin (name : String)
deriving DecidableEq, Repr

/-- Modelled from the spec: the execution trace of `_startDeps(deps)`
(lines 690-713, `concurrent: false`) under the spec's sequential TaskList
semantics (§4.1) — each delegated `manager.start(name, {})` is invoked and
settles before the next task begins. -/
def startDepsTrace : List ResourceDependency → List Ev
  | [] => []
  | d :: ds => .depStartBegin d :: .depStartEnd d :: startDepsTrace ds

/-- Modelled from the spec: the success-path execution trace of the `start`
pipeline (lines 591-640) under §4.1 semantics.  Task 1 (abort in-flight
stop) runs when enabled (`stopTaskList[name] != null`) and not skipped
(`shouldSkip`); task 2 (`_startDeps` over
`_getStartDeps(directResourceDependents[name])`, line 588) runs when it has
dependents and is not skipped (`shouldSkip`, missing adapter, or already
started); task 3 invokes `resourceAdapter.start(options)` under the same
skip conditions. -/
def startPipelineTrace (pm : PluginCRUD) (st : MState) (name : String) :
    List Ev :=
  let shouldSkip := (lookupA st.startTaskList name).isSome
  let adapterPresent := (getAdapter st name).isSome
  let started := (lookupA st.resourceAdaptersStarted name).getD false
  let sdeps := getStartDeps pm (lookupA st.directResourceDependents name)
  ((if (lookupA st.stopTaskList name).isSome && !shouldSkip
      then [Ev.abortStopEv] else []) ++
    (if !sdeps.isEmpty && !(shouldSkip || !adapterPresent || started)
      then startDepsTrace sdeps else []) ++
    (if !(shouldSkip || !adapterPresent || started)
      then [Ev.adapterStartBegin name] else []))

/-- The filtered child list `start` captures at entry (lines 588-590):
`_getStartDeps(this._directResourceDependents[name])`. -/
def directDependentsOf (pm : PluginCRUD) (st : MState) (name : String) :
    List ResourceDependency :=
  getStartDeps pm (lookupA st.directResourceDependents name)

/-- The part of the `start` pipeline trace after the optional stop-abort:
the sequential `_startDeps` block followed by the resource's own
`resourceAdapter.start(options)` invocation. -/
def startCoreTrace (pm : PluginCRUD) (st : MState) (name : String) : List Ev :=
  startDepsTrace (directDependentsOf pm st name) ++ [Ev.adapterStartBegin name]

/-- Whether there is an edge `e` in the `resourceDependents[rname]` list of
the manager at key `k`. -/
def edgeIn (srv : Server) (k : MKey) (rname : String)
    (e : ResourceDependency) : Prop :=
  ∃ st, lookupA srv k = some st ∧
    e ∈ (lookupA st.resourceDependents rname).getD []

/-- Whether a string contains no colon; under this side condition the
`_uniqueDeps` string key determines the triple. -/
def colonFree (s : String) : Prop := ':' ∉ s.data

instance (s : String) : Decidable (colonFree s) :=
  inferInstanceAs (Decidable (':' ∉ s.data))

/-- A manager state with one in-flight TaskList of every kind for resource
"x" (ids 0-3, allocation counter at 4); used to exercise re-entry. -/
def stInFlight : MState :=
  { initialState with
      nextId := 4,
      createTaskList := [("x", 0)],
      deleteTaskList := [("x", 1)],
      startTaskList := [("x", 2)],
      stopTaskList := [("x", 3)] }

/-- A CRUD descriptor declaring both start and stop. -/
def crudBoth : CRUD := ⟨false, true, true⟩

/-- A resolver under which every resource type declares start and stop. -/
def pmAll : PluginCRUD := fun _ _ => crudBoth

/-- A dependency whose plugin contains a colon. -/
def dColonPlugin : ResourceDependency := ⟨"a:b", "c", "n"⟩

/-- A structurally different dependency with the same `_uniqueDeps` string
key `"a:b:c:n"`, obtained by shifting the colon into the resource type. -/
def dColonType : ResourceDependency := ⟨"a", "b:c", "n"⟩

/-- A state whose resource "x" has `dColonPlugin` as a registered dependent
and `dColonType` as a direct dependent. -/
def stColon : MState :=
  { initialState with
      resourceDependents := [("x", [dColonPlugin])],
      directResourceDependents := [("x", [dColonType])] }

/-- An ordinary colon-free dependency. -/
def dPlain : ResourceDependency := ⟨"p", "t", "scope/w"⟩

/-- A state where `dPlain` was registered twice for "x" through
`addDependent` and is also a direct dependent of "x". -/
def stTwice : MState :=
  { addDependent (addDependent initialState "x" dPlain) "x" dPlain with
      directResourceDependents := [("x", [dPlain])] }

/-- A state holding resource "db" (adapter 7) with two created children. -/
def stDb : MState :=
  { initialState with
      resourceAdapters := [("db", some 7)],
      directResourceDependents :=
        [("db", [⟨"p", "t", "disk1"⟩, ⟨"p", "t", "disk2"⟩])] }

/-- A two-manager server: a network manager (the acting one) and a wallet
manager, both freshly constructed. -/
def srvTwo : Server :=
  [(("p", "network"), initialState), (("p", "wallet"), initialState)]

/-- The key of the acting network manager in `srvTwo`. -/
def keyNet : MKey := ("p", "network")

/-- A create context carrying adapter 3, one dependency on the wallet
"alice/w1" and one created child "alice/w2". -/
def ctxAlice : Ctx :=
  ⟨some 3, some [⟨"p", "wallet", "alice/w1"⟩], some [⟨"p", "wallet", "alice/w2"⟩]⟩

/-! ## Association-list lemmas -/

theorem lookupA_upsert_self {K V : Type} [DecidableEq K]
    (l : List (K × V)) (k : K) (v : V) : lookupA (upsert l k v) k = some v := by
  simp [upsert, lookupA]

theorem lookupA_upsert_ne {K V : Type} [DecidableEq K]
    (l : List (K × V)) (k k' : K) (v : V) (h : k' ≠ k) :
    lookupA (upsert l k v) k' = lookupA l k' := by
  simp [upsert, lookupA, h]

theorem lookupA_eraseKey_self {K V : Type} [DecidableEq K]
    (l : List (K × V)) (k : K) : lookupA (eraseKey l k) k = none := by
  induction l with
  | nil => rfl
  | cons p rest ih =>
    by_cases hp : p.1 = k
    · simpa [eraseKey, hp] using ih
    · have : k ≠ p.1 := fun hc => hp hc.symm
      simpa [eraseKey, lookupA, hp, this] using ih

theorem lookupA_eraseKey_ne {K V : Type} [DecidableEq K]
    (l : List (K × V)) (k k' : K) (h : k' ≠ k) :
    lookupA (eraseKey l k) k' = lookupA l k' := by
  induction l with
  | nil => rfl
  | cons p rest ih =>
    by_cases hp : p.1 = k
    · have hk' : k' ≠ p.1 := fun hc => h (hc.trans hp)
      simpa [eraseKey, lookupA, hp, hk', h] using ih
    · by_cases hq : k' = p.1
      · simp [eraseKey, lookupA, hp, hq]
      · simp [eraseKey, lookupA, hp, hq, ih]

/-! ## Claim theorems -/

/-- Claim C8: reading a dependencies or dependents file via `_readDeps`
returns the empty list when the file is missing (`ENOENT`) and rethrows
every other I/O error unchanged (a successful parse passes through). -/
theorem claim_C8_readDeps (r : Except IOFailure (List ResourceDependency)) :
    (∀ deps, r = .ok deps → readDeps r = .ok deps) ∧
    (∀ e, r = .error e → e.code = "ENOENT" → readDeps r = .ok []) ∧
    (∀ e, r = .error e → e.code ≠ "ENOENT" → readDeps r = .error e) := by
  refine ⟨?_, ?_, ?_⟩
  · rintro deps rfl; rfl
  · rintro e rfl h; simp [readDeps, h]
  · rintro e rfl h; simp [readDeps, h]

/-- Witness for C8: a missing file yields `[]`, a permission failure is
rethrown unchanged. -/
theorem claim_C8_readDeps_witness :
    readDeps (.error ⟨"ENOENT"⟩) = .ok [] ∧
    readDeps (.error ⟨"EACCES"⟩) = .error ⟨"EACCES"⟩ :=
  ⟨(claim_C8_readDeps (.error ⟨"ENOENT"⟩)).2.1 ⟨"ENOENT"⟩ rfl (by decide),
   (claim_C8_readDeps (.error ⟨"EACCES"⟩)).2.2 ⟨"EACCES"⟩ rfl (by decide)⟩

/-- Claim C10: `_destroy(name, adapter)` removes `name` from the adapters
map before awaiting `adapter.destroy()`, so for every outcome `r` of the
await — including a rejection — the resulting state has no binding for
`name`, and the outcome propagates unchanged. -/
theorem claim_C10_destroy (st : MState) (name : String) (r : Except Unit Unit) :
    lookupA (destroyAdapter st name r).1.resourceAdapters name = none ∧
    getAdapter (destroyAdapter st name r).1 name = none ∧
    (destroyAdapter st name r).2 = r := by
  refine ⟨?_, ?_, rfl⟩
  · exact lookupA_eraseKey_self _ _
  · simp [getAdapter, destroyAdapter, lookupA_eraseKey_self]

/-- Counterexample to claim C2: running `start`'s `onDone` for a
non-duplicate start whose task list FAILED (`failed = true`) leaves
`started["alice"] = true` — line 660 sets the flag before testing
`failed` — contradicting "after a start operation whose task list failed,
started[name] is not true". -/
theorem claim_C2_cex :
    lookupA ((startOnDone "alice" false true initialState).1.resourceAdaptersStarted)
      "alice" = some true ∧
    (startOnDone "alice" false true initialState).2 =
      some ⟨CompOp.compStop, "alice", true⟩ := by
  decide

/-- Claim C2 as amended: a non-duplicate start's `onDone` sets
`started[name] = true` regardless of failure; on failure it additionally
fires a fire-and-forget `stop(name, options)` whose errors are swallowed;
`stop`'s `onComplete` resets the flag to `false`; the map is empty at
construction; and a duplicate start's `onDone` changes nothing. -/
theorem claim_C2_amended (st : MState) (name : String) (failed : Bool) :
    lookupA ((startOnDone name false failed st).1.resourceAdaptersStarted) name =
      some true ∧
    (startOnDone name false failed st).2 =
      (if failed then some ⟨CompOp.compStop, name, true⟩ else none) ∧
    lookupA ((stopOnComplete name st).resourceAdaptersStarted) name = some false ∧
    lookupA initialState.resourceAdaptersStarted name = none ∧
    startOnDone name true failed st = (st, none) := by
  refine ⟨?_, rfl, ?_, rfl, rfl⟩
  · simpa [startOnDone] using lookupA_upsert_self st.resourceAdaptersStarted name true
  · simpa [stopOnComplete] using lookupA_upsert_self st.resourceAdaptersStarted name false

/-- Counterexample to claim C7: when the resource type declares neither
start nor stop, both `start` and `stop` throw `ResourceNoStartError` — not
`ResourceNoStopError` — although stop is undefined. -/
theorem claim_C7_cex :
    start ⟨false, false, false⟩ initialState "x" = .error .resourceNoStartError ∧
    stop ⟨false, false, false⟩ initialState "x" = .error .resourceNoStartError ∧
    RMErr.resourceNoStartError ≠ RMErr.resourceNoStopError := by
  decide

/-- Claim C7 as amended: both `start` and `stop` throw synchronously, with
the start check taking precedence: `ResourceNoStartError` whenever start is
undefined, `ResourceNoStopError` when start is defined but stop is not, and
no error when both are defined. -/
theorem claim_C7_amended (crud : CRUD) (st : MState) (name : String) :
    (crud.start = false →
      start crud st name = .error .resourceNoStartError ∧
      stop crud st name = .error .resourceNoStartError) ∧
    (crud.start = true → crud.stop = false →
      start crud st name = .error .resourceNoStopError ∧
      stop crud st name = .error .resourceNoStopError) ∧
    (crud.start = true → crud.stop = true →
      (∀ e, start crud st name ≠ .error e) ∧ (∀ e, stop crud st name ≠ .error e)) := by
  refine ⟨fun h1 => ?_, fun h1 h2 => ?_, fun h1 h2 => ⟨fun e => ?_, fun e => ?_⟩⟩
  · constructor <;> simp [start, stop, h1]
  · constructor <;> simp [start, stop, h1, h2]
  · simp [start, h1, h2]
  · simp [stop, h1, h2]

/-- Witness for C7 as amended, exercising all three branches at concrete
CRUD descriptors. -/
theorem claim_C7_amended_witness :
    (start ⟨false, false, true⟩ initialState "n" = .error .resourceNoStartError ∧
      stop ⟨false, false, true⟩ initialState "n" = .error .resourceNoStartError) ∧
    (start ⟨false, true, false⟩ initialState "n" = .error .resourceNoStopError ∧
      stop ⟨false, true, false⟩ initialState "n" = .error .resourceNoStopError) ∧
    (start crudBoth initialState "n" ≠ .error .resourceNoStartError ∧
      stop crudBoth initialState "n" ≠ .error .resourceNoStopError) :=
  ⟨(claim_C7_amended ⟨false, false, true⟩ initialState "n").1 rfl,
   (claim_C7_amended ⟨false, true, false⟩ initialState "n").2.1 rfl rfl,
   (claim_C7_amended crudBoth initialState "n").2.2 rfl rfl |>.1 .resourceNoStartError,
   (claim_C7_amended crudBoth initialState "n").2.2 rfl rfl |>.2 .resourceNoStopError⟩

/-- Counterexample to claim C1: with a create, delete, start and stop for
"x" already in flight (TaskList ids 0-3), re-entrant calls return freshly
allocated TaskLists (id 4), not the stored in-flight objects, for every
operation kind. -/
theorem claim_C1_cex :
    lookupA stInFlight.createTaskList "x" = some 0 ∧
    (create stInFlight "x").2.id = 4 ∧ (create stInFlight "x").2.id ≠ 0 ∧
    lookupA stInFlight.deleteTaskList "x" = some 1 ∧
    (delete stInFlight "x").2.id = 4 ∧ (delete stInFlight "x").2.id ≠ 1 ∧
    start crudBoth stInFlight "x" =
      .ok ({ stInFlight with nextId := 5 }, ⟨4, true⟩) ∧
    stop crudBoth stInFlight "x" =
      .ok ({ stInFlight with nextId := 5 }, ⟨4, true⟩) := by
  decide

/-- Claim C1 as amended: re-entering any operation kind while an operation
of the same kind is in flight for that name returns a freshly allocated
TaskList — distinct from the in-flight one — with its captured skip flag
set; the in-flight map is left unchanged (the new list is not stored) and
the only state change is the allocation counter. -/
theorem claim_C1_amended (crud : CRUD) (st : MState) (name : String) (k : Nat)
    (hk : k < st.nextId) :
    (lookupA st.createTaskList name = some k →
      create st name = ({ st with nextId := st.nextId + 1 }, ⟨st.nextId, true⟩) ∧
      (create st name).2.id ≠ k) ∧
    (lookupA st.deleteTaskList name = some k →
      delete st name = ({ st with nextId := st.nextId + 1 }, ⟨st.nextId, true⟩) ∧
      (delete st name).2.id ≠ k) ∧
    (crud.start = true → crud.stop = true →
      lookupA st.startTaskList name = some k →
      start crud st name =
        .ok ({ st with nextId := st.nextId + 1 }, ⟨st.nextId, true⟩) ∧
      st.nextId ≠ k) ∧
    (crud.start = true → crud.stop = true →
      lookupA st.stopTaskList name = some k →
      stop crud st name =
        .ok ({ st with nextId := st.nextId + 1 }, ⟨st.nextId, true⟩) ∧
      st.nextId ≠ k) := by
  refine ⟨fun h => ⟨?_, ?_⟩, fun h => ⟨?_, ?_⟩,
    fun h1 h2 h => ⟨?_, ?_⟩, fun h1 h2 h => ⟨?_, ?_⟩⟩
  · simp [create, h]
  · simp [create, h]; omega
  · simp [delete, h]
  · simp [delete, h]; omega
  · simp [start, h1, h2, h]
  · omega
  · simp [stop, h1, h2, h]
  · omega

/-- Witness for C1 as amended: the in-flight state with ids 0-3 and counter
4 satisfies all four hypotheses at id 0 resp. 1-3. -/
theorem claim_C1_amended_witness :
    create stInFlight "x" = ({ stInFlight with nextId := 5 }, ⟨4, true⟩) ∧
    delete stInFlight "x" = ({ stInFlight with nextId := 5 }, ⟨4, true⟩) ∧
    start crudBoth stInFlight "x" =
      .ok ({ stInFlight with nextId := 5 }, ⟨4, true⟩) ∧
    stop crudBoth stInFlight "x" =
      .ok ({ stInFlight with nextId := 5 }, ⟨4, true⟩) :=
  ⟨((claim_C1_amended crudBoth stInFlight "x" 0 (by decide)).1 (by decide)).1,
   ((claim_C1_amended crudBoth stInFlight "x" 1 (by decide)).2.1 (by decide)).1,
   ((claim_C1_amended crudBoth stInFlight "x" 2 (by decide)).2.2.1 rfl rfl (by decide)).1,
   ((claim_C1_amended crudBoth stInFlight "x" 3 (by decide)).2.2.2 rfl rfl (by decide)).1⟩

/-- Claim C9: a duplicate invocation is inert with respect to manager
bookkeeping: the TaskList it returns is never stored (the in-flight maps
are untouched; only the allocation counter moves), and its `onDone` —
running with its captured `shouldSkip = true` — neither clears the
in-flight slot of the original operation nor fires any compensation
(no delete after a failed duplicate create, no stop after a failed
duplicate start). -/
theorem claim_C9_duplicate_inert (crud : CRUD) (st : MState) (name : String)
    (failed : Bool) :
    ((lookupA st.createTaskList name).isSome = true →
      create st name = ({ st with nextId := st.nextId + 1 }, ⟨st.nextId, true⟩)) ∧
    ((lookupA st.deleteTaskList name).isSome = true →
      delete st name = ({ st with nextId := st.nextId + 1 }, ⟨st.nextId, true⟩)) ∧
    (crud.start = true → crud.stop = true →
      (lookupA st.startTaskList name).isSome = true →
      start crud st name =
        .ok ({ st with nextId := st.nextId + 1 }, ⟨st.nextId, true⟩)) ∧
    (crud.start = true → crud.stop = true →
      (lookupA st.stopTaskList name).isSome = true →
      stop crud st name =
        .ok ({ st with nextId := st.nextId + 1 }, ⟨st.nextId, true⟩)) ∧
    createOnDone name true failed st = (st, none) ∧
    deleteOnDone name true st = (st, none) ∧
    startOnDone name true failed st = (st, none) ∧
    stopOnDone name true st = (st, none) := by
  refine ⟨fun h => ?_, fun h => ?_, fun h1 h2 h => ?_, fun h1 h2 h => ?_,
    rfl, rfl, rfl, rfl⟩
  · simp [create, h]
  · simp [delete, h]
  · simp [start, h1, h2, h]
  · simp [stop, h1, h2, h]

/-- Witness for C9 at the concrete in-flight state. -/
theorem claim_C9_duplicate_inert_witness :
    create stInFlight "x" = ({ stInFlight with nextId := 5 }, ⟨4, true⟩) ∧
    startOnDone "x" true true stInFlight = (stInFlight, none) ∧
    createOnDone "x" true true stInFlight = (stInFlight, none) :=
  ⟨(claim_C9_duplicate_inert crudBoth stInFlight "x" true).1 (by decide),
   (claim_C9_duplicate_inert crudBoth stInFlight "x" true).2.2.2.2.2.2.1,
   (claim_C9_duplicate_inert crudBoth stInFlight "x" true).2.2.2.2.1⟩

/-! ## The `_uniqueDeps` string key versus structural equality -/

theorem sep_append_inj (c : Char) :
    ∀ (xs ys as bs : List Char), c ∉ xs → c ∉ ys →
      xs ++ c :: as = ys ++ c :: bs → xs = ys ∧ as = bs := by
  intro xs
  induction xs with
  | nil =>
    intro ys as bs _ hy h
    cases ys with
    | nil => simpa using h
    | cons y ys =>
      rw [List.nil_append, List.cons_append] at h
      injection h with hcy _
      subst hcy
      exact absurd (List.mem_cons_self _ _) hy
  | cons x xs ih =>
    intro ys as bs hx hy h
    cases ys with
    | nil =>
      rw [List.cons_append, List.nil_append] at h
      injection h with hxc _
      subst hxc
      exact absurd (List.mem_cons_self _ _) hx
    | cons y ys =>
      rw [List.cons_append, List.cons_append] at h
      injection h with hxy htl
      obtain ⟨h1, h2⟩ := ih ys as bs
        (fun hm => hx (List.mem_cons_of_mem _ hm))
        (fun hm => hy (List.mem_cons_of_mem _ hm)) htl
      subst hxy
      exact ⟨by rw [h1], h2⟩

theorem depKey_data (d : ResourceDependency) :
    (depKey d).data =
      d.plugin.data ++ ':' :: (d.resourceType.data ++ ':' :: d.name.data) := by
  have hc : (":" : String).data = [':'] := rfl
  simp [depKey, String.data_append, hc, List.append_assoc]

theorem depKey_inj {a b : ResourceDependency}
    (hap : colonFree a.plugin) (har : colonFree a.resourceType)
    (hbp : colonFree b.plugin) (hbr : colonFree b.resourceType)
    (h : depKey a = depKey b) : a = b := by
  have hd := congrArg String.data h
  rw [depKey_data, depKey_data] at hd
  obtain ⟨h1, h2⟩ := sep_append_inj ':' _ _ _ _ hap hbp hd
  obtain ⟨h3, h4⟩ := sep_append_inj ':' _ _ _ _ har hbr h2
  obtain ⟨pa, ra, na⟩ := a
  obtain ⟨pb, rb, nb⟩ := b
  simp only at h1 h3 h4
  rw [ResourceDependency.mk.injEq]
  exact ⟨String.ext h1, String.ext h3, String.ext h4⟩

theorem uniqByKeys_keys_not_seen {β : Type} [DecidableEq β]
    (key : ResourceDependency → β) :
    ∀ (deps : List ResourceDependency) (seen : List β),
      ((uniqByKeys key deps seen).map key).Nodup ∧
      ∀ b ∈ (uniqByKeys key deps seen).map key, b ∉ seen := by
  intro deps
  induction deps with
  | nil => intro seen; simp [uniqByKeys]
  | cons d ds ih =>
    intro seen
    by_cases hmem : key d ∈ seen
    · simpa [uniqByKeys, hmem] using ih seen
    · have h2 := ih (key d :: seen)
      refine ⟨?_, ?_⟩
      · simp only [uniqByKeys, if_neg hmem, List.map_cons, List.nodup_cons]
        exact ⟨fun hc => (h2.2 _ hc) (List.mem_cons_self _ _), h2.1⟩
      · intro b hb
        simp only [uniqByKeys, if_neg hmem, List.map_cons, List.mem_cons] at hb
        rcases hb with rfl | hb
        · exact hmem
        · exact fun hs => (h2.2 b hb) (List.mem_cons_of_mem _ hs)

theorem uniqByKeys_structural_eq :
    ∀ (deps seenS : List ResourceDependency),
      (∀ d ∈ deps, colonFree d.plugin ∧ colonFree d.resourceType) →
      (∀ d ∈ seenS, colonFree d.plugin ∧ colonFree d.resourceType) →
      uniqByKeys depKey deps (seenS.map depKey) =
        uniqByKeys (fun d => d) deps seenS := by
  intro deps
  induction deps with
  | nil => intro seenS _ _; rfl
  | cons d ds ih =>
    intro seenS hd hs
    have hdd := hd d (List.mem_cons_self _ _)
    have hds : ∀ x ∈ ds, colonFree x.plugin ∧ colonFree x.resourceType :=
      fun x hx => hd x (List.mem_cons_of_mem _ hx)
    by_cases hmem : d ∈ seenS
    · have hk : depKey d ∈ seenS.map depKey := List.mem_map_of_mem _ hmem
      simp only [uniqByKeys, if_pos hk, if_pos hmem]
      exact ih seenS hds hs
    · have hk : depKey d ∉ seenS.map depKey := by
        intro hc
        obtain ⟨s, hsmem, hkey⟩ := List.mem_map.mp hc
        have hss := hs s hsmem
        have hsd : s = d := depKey_inj hss.1 hss.2 hdd.1 hdd.2 hkey
        exact hmem (hsd ▸ hsmem)
      simp only [uniqByKeys, if_neg hk, if_neg hmem]
      have hcons : (d :: seenS).map depKey = depKey d :: seenS.map depKey := rfl
      rw [← hcons, ih (d :: seenS) hds (fun x hx => by
        rcases List.mem_cons.mp hx with rfl | hx
        · exact hdd
        · exact hs x hx)]

/-- Counterexample to claim C5: `_uniqueDeps` deduplicates by the joined
string key, not by structural equality: the structurally distinct
dependents `("a:b","c","n")` and `("a","b:c","n")` share the key
`"a:b:c:n"`, so delete's cascade set keeps only the first of them, whereas
the structural deduplication of the union keeps both. -/
theorem claim_C5_cex :
    (lookupA stColon.resourceDependents "x").getD [] ++
      (lookupA stColon.directResourceDependents "x").getD [] =
      [dColonPlugin, dColonType] ∧
    deleteDependents stColon "x" = [dColonPlugin] ∧
    uniqueDepsStructural [dColonPlugin, dColonType] =
      [dColonPlugin, dColonType] ∧
    dColonPlugin ≠ dColonType := by
  decide

/-- Claim C5 as amended: delete's cascade set is the union of
`resourceDependents[name]` and `directDependents[name]` deduplicated by
equality of the joined key string `plugin:resourceType:name`; whenever no
involved plugin or resourceType name contains a colon this coincides with
structural deduplication, and every element of that set is delegated to
its owning manager in a concurrent task list. -/
theorem claim_C5_amended (st : MState) (name : String)
    (h : ∀ d ∈ (lookupA st.resourceDependents name).getD [] ++
        (lookupA st.directResourceDependents name).getD [],
        colonFree d.plugin ∧ colonFree d.resourceType) :
    deleteDependents st name =
      uniqueDepsStructural ((lookupA st.resourceDependents name).getD [] ++
        (lookupA st.directResourceDependents name).getD []) ∧
    deleteDeps (deleteDependents st name) =
      ⟨deleteDependents st name, true⟩ := by
  refine ⟨?_, rfl⟩
  have hmain := uniqByKeys_structural_eq
    ((lookupA st.resourceDependents name).getD [] ++
      (lookupA st.directResourceDependents name).getD [])
    [] h (by simp)
  simpa [deleteDependents, uniqueDeps, uniqueDepsStructural] using hmain

/-- Witness for C5 as amended at a colon-free state where the same
dependent is registered twice and is also a direct dependent. -/
theorem claim_C5_amended_witness :
    deleteDependents stTwice "x" =
      uniqueDepsStructural ((lookupA stTwice.resourceDependents "x").getD [] ++
        (lookupA stTwice.directResourceDependents "x").getD []) :=
  (claim_C5_amended stTwice "x" (by decide)).1

/-- Counterexample to claim C6: `stop` consumes `resourceDependents[name]`
through `_getStopDeps` alone (line 756) — `_uniqueDeps` is NOT applied — so
a dependent registered twice through `addDependent` yields two delegated
stop tasks in the concurrent `_stopDeps` list, not at most one action. -/
theorem claim_C6_cex :
    lookupA stTwice.resourceDependents "x" = some [dPlain, dPlain] ∧
    stopDependentsOf pmAll stTwice "x" = [dPlain, dPlain] ∧
    stopDeps (stopDependentsOf pmAll stTwice "x") = ⟨[dPlain, dPlain], true⟩ ∧
    uniqueDeps [dPlain, dPlain] = [dPlain] := by
  decide

/-- Claim C6 as amended: `addDependent` appends with no deduplication;
delete's cascade applies `_uniqueDeps` before acting (its delegated list
has pairwise distinct keys, so a dependent registered more than once is
deleted at most once); but stop's dependent cascade does not deduplicate —
it only filters by stop support, preserving multiplicity, so a dependent
registered n times yields n delegated stop tasks. -/
theorem claim_C6_amended (pm : PluginCRUD) (st : MState) (name : String)
    (dep d : ResourceDependency) :
    lookupA (addDependent st name dep).resourceDependents name =
      some ((lookupA st.resourceDependents name).getD [] ++ [dep]) ∧
    ((deleteDependents st name).map depKey).Nodup ∧
    (stopDependentsOf pm st name).count d =
      (if (pm d.plugin d.resourceType).stop = true
        then ((lookupA st.resourceDependents name).getD []).count d else 0) := by
  refine ⟨?_, ?_, ?_⟩
  · simpa [addDependent] using
      lookupA_upsert_self st.resourceDependents name
        ((lookupA st.resourceDependents name).getD [] ++ [dep])
  · simpa [deleteDependents, uniqueDeps] using
      (uniqByKeys_keys_not_seen depKey
        ((lookupA st.resourceDependents name).getD [] ++
          (lookupA st.directResourceDependents name).getD []) []).1
  · simp only [stopDependentsOf, getStopDeps]
    by_cases hstop : (pm d.plugin d.resourceType).stop = true
    · rw [if_pos hstop]
      exact List.count_filter hstop
    · rw [if_neg hstop]
      refine List.count_eq_zero.mpr ?_
      intro hc
      exact hstop (List.mem_filter.mp hc).2

/-! ## Trace lemmas for the sequential `_startDeps` block -/

theorem get_cons_cons_two (a b : Ev) (l : List Ev) (n : Nat) :
    (a :: b :: l).get? (n + 2) = l.get? n := rfl

theorem startDepsTrace_length (ds : List ResourceDependency) :
    (startDepsTrace ds).length = 2 * ds.length := by
  induction ds with
  | nil => rfl
  | cons d ds ih =>
    simp only [startDepsTrace, List.length_cons, ih, List.length_cons]
    ring

theorem startDepsTrace_get_begin :
    ∀ (ds : List ResourceDependency) (rest : List Ev) (i : Nat)
      (h : i < ds.length),
      (startDepsTrace ds ++ rest).get? (2 * i) =
        some (.depStartBegin (ds.get ⟨i, h⟩)) := by
  intro ds
  induction ds with
  | nil => intro rest i h; exact absurd h (by simp)
  | cons d ds ih =>
    intro rest i h
    cases i with
    | zero => rfl
    | succ j =>
      have h2 : 2 * (j + 1) = 2 * j + 2 := by ring
      rw [h2]
      rw [show startDepsTrace (d :: ds) ++ rest =
        Ev.depStartBegin d :: Ev.depStartEnd d :: (startDepsTrace ds ++ rest) from rfl]
      rw [get_cons_cons_two]
      exact ih rest j (Nat.lt_of_succ_lt_succ h)

theorem startDepsTrace_get_end :
    ∀ (ds : List ResourceDependency) (rest : List Ev) (i : Nat)
      (h : i < ds.length),
      (startDepsTrace ds ++ rest).get? (2 * i + 1) =
        some (.depStartEnd (ds.get ⟨i, h⟩)) := by
  intro ds
  induction ds with
  | nil => intro rest i h; exact absurd h (by simp)
  | cons d ds ih =>
    intro rest i h
    cases i with
    | zero => rfl
    | succ j =>
      have h2 : 2 * (j + 1) + 1 = (2 * j + 1) + 2 := by ring
      rw [h2]
      rw [show startDepsTrace (d :: ds) ++ rest =
        Ev.depStartBegin d :: Ev.depStartEnd d :: (startDepsTrace ds ++ rest) from rfl]
      rw [get_cons_cons_two]
      exact ih rest j (Nat.lt_of_succ_lt_succ h)

theorem startDepsTrace_get_last :
    ∀ (ds : List ResourceDependency) (e : Ev),
      (startDepsTrace ds ++ [e]).get? (2 * ds.length) = some e := by
  intro ds
  induction ds with
  | nil => intro e; rfl
  | cons d ds ih =>
    intro e
    have h2 : 2 * (d :: ds).length = 2 * ds.length + 2 := by
      simp [List.length_cons]; ring
    rw [h2]
    rw [show startDepsTrace (d :: ds) ++ [e] =
      Ev.depStartBegin d :: Ev.depStartEnd d :: (startDepsTrace ds ++ [e]) from rfl]
    rw [get_cons_cons_two]
    exact ih e

/-- Claim C4: for a non-duplicate start of an existing, not-yet-started
resource, the pipeline's trace is the optional stop-abort, then the
sequential `_startDeps` block over the start-supporting direct dependents
in stored order, then the resource's own `adapter.start`: the i-th child's
start begins at position `2i` and settles at position `2i+1` of the core
trace — so child i settles before child j begins whenever `i < j` — and
`adapter.start` is invoked at the final position `2n`, after every child
settled. -/
theorem claim_C4_start_order (pm : PluginCRUD) (st : MState) (name : String)
    (h1 : lookupA st.startTaskList name = none)
    (h2 : (getAdapter st name).isSome = true)
    (h3 : (lookupA st.resourceAdaptersStarted name).getD false = false) :
    startPipelineTrace pm st name =
      (if (lookupA st.stopTaskList name).isSome then [Ev.abortStopEv] else []) ++
        startCoreTrace pm st name ∧
    (∀ d ∈ directDependentsOf pm st name,
      (pm d.plugin d.resourceType).start = true) ∧
    (startCoreTrace pm st name).length =
      2 * (directDependentsOf pm st name).length + 1 ∧
    (∀ i (hi : i < (directDependentsOf pm st name).length),
      (startCoreTrace pm st name).get? (2 * i) =
        some (.depStartBegin ((directDependentsOf pm st name).get ⟨i, hi⟩)) ∧
      (startCoreTrace pm st name).get? (2 * i + 1) =
        some (.depStartEnd ((directDependentsOf pm st name).get ⟨i, hi⟩))) ∧
    (startCoreTrace pm st name).get?
        (2 * (directDependentsOf pm st name).length) =
      some (Ev.adapterStartBegin name) := by
  refine ⟨?_, ?_, ?_, fun i hi => ⟨?_, ?_⟩, ?_⟩
  · simp only [startPipelineTrace, startCoreTrace, directDependentsOf, h1, h2, h3,
      Option.isSome_none, Bool.not_false, Bool.and_true, Bool.false_or, Bool.or_false]
    cases hsd : getStartDeps pm (lookupA st.directResourceDependents name) with
    | nil => simp [startDepsTrace]
    | cons a l => simp [startDepsTrace]
  · intro d hd
    exact (List.mem_filter.mp hd).2
  · simp only [startCoreTrace, List.length_append, startDepsTrace_length,
      List.length_singleton]
  · exact startDepsTrace_get_begin _ _ i hi
  · exact startDepsTrace_get_end _ _ i hi
  · exact startDepsTrace_get_last _ _

/-- Witness for C4 at the "db" resource with two start-supporting created
children: the trace starts disk1, settles it, starts disk2, settles it,
then invokes db's own adapter start. -/
theorem claim_C4_start_order_witness :
    startPipelineTrace pmAll stDb "db" =
      [Ev.depStartBegin ⟨"p", "t", "disk1"⟩, Ev.depStartEnd ⟨"p", "t", "disk1"⟩,
       Ev.depStartBegin ⟨"p", "t", "disk2"⟩, Ev.depStartEnd ⟨"p", "t", "disk2"⟩,
       Ev.adapterStartBegin "db"] := by
  have h := (claim_C4_start_order pmAll stDb "db" (by decide) (by decide)
    (by decide)).1
  rw [h]
  decide

/-! ## Server-level lemmas for dependency propagation -/

theorem serverAddDependent_isSome {srv : Server} {k : MKey} {n : String}
    {dep : ResourceDependency} {srv' : Server}
    (h : serverAddDependent srv k n dep = some srv') (k' : MKey) :
    (lookupA srv k').isSome = true → (lookupA srv' k').isSome = true := by
  intro hk'
  unfold serverAddDependent at h
  cases hst : lookupA srv k with
  | none => rw [hst] at h; exact absurd h (by simp)
  | some st =>
    rw [hst] at h
    injection h with h
    subst h
    by_cases hkk : k' = k
    · subst hkk; simp [lookupA_upsert_self]
    · rw [lookupA_upsert_ne _ _ _ _ hkk]; exact hk'

theorem serverAddDependent_fields {srv : Server} {k : MKey} {n : String}
    {dep : ResourceDependency} {srv' : Server}
    (h : serverAddDependent srv k n dep = some srv') (k' : MKey)
    (st' : MState) (hl : lookupA srv' k' = some st') :
    ∃ st, lookupA srv k' = some st ∧
      st'.resourceAdapters = st.resourceAdapters ∧
      st'.directResourceDependents = st.directResourceDependents ∧
      st'.createTaskList = st.createTaskList := by
  unfold serverAddDependent at h
  cases hst : lookupA srv k with
  | none => rw [hst] at h; exact absurd h (by simp)
  | some st =>
    rw [hst] at h
    injection h with h
    subst h
    by_cases hkk : k' = k
    · subst hkk
      rw [lookupA_upsert_self] at hl
      injection hl with hl
      subst hl
      exact ⟨st, hst, rfl, rfl, rfl⟩
    · rw [lookupA_upsert_ne _ _ _ _ hkk] at hl
      exact ⟨st', hl, rfl, rfl, rfl⟩

theorem serverAddDependent_edge {srv : Server} {k : MKey} {n : String}
    {dep : ResourceDependency} {srv' : Server}
    (h : serverAddDependent srv k n dep = some srv') :
    edgeIn srv' k n dep := by
  unfold serverAddDependent at h
  cases hst : lookupA srv k with
  | none => rw [hst] at h; exact absurd h (by simp)
  | some st =>
    rw [hst] at h
    injection h with h
    subst h
    refine ⟨addDependent st n dep, lookupA_upsert_self _ _ _, ?_⟩
    simp [addDependent, lookupA_upsert_self]

theorem serverAddDependent_edge_mono {srv : Server} {k2 : MKey} {n2 : String}
    {e2 : ResourceDependency} {srv' : Server}
    (h : serverAddDependent srv k2 n2 e2 = some srv')
    {k : MKey} {rname : String} {e : ResourceDependency}
    (he : edgeIn srv k rname e) : edgeIn srv' k rname e := by
  obtain ⟨st, hst, hmem⟩ := he
  unfold serverAddDependent at h
  cases hst2 : lookupA srv k2 with
  | none => rw [hst2] at h; exact absurd h (by simp)
  | some st2 =>
    rw [hst2] at h
    injection h with h
    subst h
    by_cases hkk : k = k2
    · subst hkk
      rw [hst] at hst2
      injection hst2 with hst2
      subst hst2
      refine ⟨addDependent st n2 e2, lookupA_upsert_self _ _ _, ?_⟩
      by_cases hnn : rname = n2
      · subst hnn
        simp only [addDependent, lookupA_upsert_self, Option.getD_some]
        exact List.mem_append_left _ hmem
      · simpa [addDependent, lookupA_upsert_ne _ _ _ _ hnn] using hmem
    · exact ⟨st, by rw [lookupA_upsert_ne _ _ _ _ hkk]; exact hst, hmem⟩

theorem addDependents_some (p t n : String) :
    ∀ (deps : List ResourceDependency) (srv : Server),
      (∀ d ∈ deps, (lookupA srv (d.plugin, d.resourceType)).isSome = true) →
      ∃ srv', addDependents p t n deps srv = some srv' := by
  intro deps
  induction deps with
  | nil => intro srv _; exact ⟨srv, rfl⟩
  | cons d ds ih =>
    intro srv hpres
    have hd := hpres d (List.mem_cons_self _ _)
    cases hst : lookupA srv (d.plugin, d.resourceType) with
    | none => rw [hst] at hd; exact absurd hd (by simp)
    | some st =>
      have hstep : serverAddDependent srv (d.plugin, d.resourceType) d.name
          ⟨p, t, n⟩ = some (upsert srv (d.plugin, d.resourceType)
            (addDependent st d.name ⟨p, t, n⟩)) := by
        unfold serverAddDependent
        rw [hst]
      obtain ⟨srv', hsrv'⟩ := ih _ (fun x hx =>
        serverAddDependent_isSome hstep (x.plugin, x.resourceType)
          (hpres x (List.mem_cons_of_mem _ hx)))
      refine ⟨srv', ?_⟩
      unfold addDependents
      rw [hstep]
      exact hsrv'

theorem addDependents_fields (p t n : String) :
    ∀ (deps : List ResourceDependency) (srv srv' : Server),
      addDependents p t n deps srv = some srv' →
      ∀ (k' : MKey) (st' : MState), lookupA srv' k' = some st' →
        ∃ st, lookupA srv k' = some st ∧
          st'.resourceAdapters = st.resourceAdapters ∧
          st'.directResourceDependents = st.directResourceDependents ∧
          st'.createTaskList = st.createTaskList := by
  intro deps
  induction deps with
  | nil =>
    intro srv srv' h k' st' hl
    unfold addDependents at h
    injection h with h
    subst h
    exact ⟨st', hl, rfl, rfl, rfl⟩
  | cons d ds ih =>
    intro srv srv' h k' st' hl
    unfold addDependents at h
    cases hstep : serverAddDependent srv (d.plugin, d.resourceType) d.name
        ⟨p, t, n⟩ with
    | none => rw [hstep] at h; exact absurd h (by simp)
    | some srv1 =>
      rw [hstep] at h
      obtain ⟨st1, hst1, ha1, hd1, hc1⟩ := ih srv1 srv' h k' st' hl
      obtain ⟨st0, hst0, ha0, hd0, hc0⟩ :=
        serverAddDependent_fields hstep k' st1 hst1
      exact ⟨st0, hst0, ha1.trans ha0, hd1.trans hd0, hc1.trans hc0⟩

theorem addDependents_edge_mono (p t n : String) :
    ∀ (deps : List ResourceDependency) (srv srv' : Server),
      addDependents p t n deps srv = some srv' →
      ∀ {k : MKey} {rname : String} {e : ResourceDependency},
        edgeIn srv k rname e → edgeIn srv' k rname e := by
  intro deps
  induction deps with
  | nil =>
    intro srv srv' h k rname e he
    unfold addDependents at h
    injection h with h
    subst h
    exact he
  | cons d ds ih =>
    intro srv srv' h k rname e he
    unfold addDependents at h
    cases hstep : serverAddDependent srv (d.plugin, d.resourceType) d.name
        ⟨p, t, n⟩ with
    | none => rw [hstep] at h; exact absurd h (by simp)
    | some srv1 =>
      rw [hstep] at h
      exact ih srv1 srv' h (serverAddDependent_edge_mono hstep he)

theorem addDependents_isSome (p t n : String) :
    ∀ (deps : List ResourceDependency) (srv srv' : Server),
      addDependents p t n deps srv = some srv' →
      ∀ k : MKey, (lookupA srv k).isSome = true →
        (lookupA srv' k).isSome = true := by
  intro deps
  induction deps with
  | nil =>
    intro srv srv' h k hk
    unfold addDependents at h
    injection h with h
    subst h
    exact hk
  | cons d ds ih =>
    intro srv srv' h k hk
    unfold addDependents at h
    cases hstep : serverAddDependent srv (d.plugin, d.resourceType) d.name
        ⟨p, t, n⟩ with
    | none => rw [hstep] at h; exact absurd h (by simp)
    | some srv1 =>
      rw [hstep] at h
      exact ih srv1 srv' h k (serverAddDependent_isSome hstep k hk)

theorem addDependents_edges (p t n : String) :
    ∀ (deps : List ResourceDependency) (srv srv' : Server),
      addDependents p t n deps srv = some srv' →
      ∀ d ∈ deps, edgeIn srv' (d.plugin, d.resourceType) d.name ⟨p, t, n⟩ := by
  intro deps
  induction deps with
  | nil => intro srv srv' _ d hd; exact absurd hd (by simp)
  | cons d ds ih =>
    intro srv srv' h x hx
    unfold addDependents at h
    cases hstep : serverAddDependent srv (d.plugin, d.resourceType) d.name
        ⟨p, t, n⟩ with
    | none => rw [hstep] at h; exact absurd h (by simp)
    | some srv1 =>
      rw [hstep] at h
      rcases List.mem_cons.mp hx with rfl | hx
      · exact addDependents_edge_mono p t n ds srv1 srv' h
          (serverAddDependent_edge hstep)
      · exact ih srv1 srv' h x hx

/-- Claim C3: for a non-duplicate create whose task list fails before the
final-setup task ran, with the adapter-creation step having placed adapter
`a` into the shared context: `onError` still installs the adapter into the
adapters map together with the context's dependents and propagates its
dependencies as inverse edges into the owning managers; then `onDone(true)`
clears the create slot and schedules a fire-and-forget
`delete(name, options)` whose own errors are swallowed. -/
theorem claim_C3_create_failure (k : MKey) (name : String) (ctx : Ctx)
    (srv : Server) (a : Nat) (st0 : MState)
    (hself : lookupA srv k = some st0)
    (hadapter : ctx.resourceAdapter = some a)
    (hdeps : ∀ d ∈ ctx.dependencies.getD [],
      (lookupA srv (d.plugin, d.resourceType)).isSome = true) :
    ∃ srv' st',
      createFailurePath k name ctx false false srv =
        some (srv', some ⟨CompOp.compDelete, name, true⟩) ∧
      lookupA srv' k = some st' ∧
      lookupA st'.resourceAdapters name = some (some a) ∧
      lookupA st'.directResourceDependents name = some (ctx.dependents.getD []) ∧
      lookupA st'.createTaskList name = none ∧
      ∀ d ∈ ctx.dependencies.getD [],
        edgeIn srv' (d.plugin, d.resourceType) d.name ⟨k.1, k.2, name⟩ := by
  have hpres : ∀ d ∈ ctx.dependencies.getD [],
      (lookupA (upsert srv k (installFromContext st0 name ctx))
        (d.plugin, d.resourceType)).isSome = true := by
    intro d hd
    by_cases hkk : (d.plugin, d.resourceType) = k
    · rw [hkk, lookupA_upsert_self]; rfl
    · rw [lookupA_upsert_ne _ _ _ _ hkk]; exact hdeps d hd
  obtain ⟨srv2, h2⟩ := addDependents_some k.1 k.2 name (ctx.dependencies.getD [])
    (upsert srv k (installFromContext st0 name ctx)) hpres
  have hsfc : setFromContext k name ctx false srv = some srv2 := by
    unfold setFromContext
    rw [if_neg (by simp), hself]
    exact h2
  have hks : (lookupA srv2 k).isSome = true :=
    addDependents_isSome k.1 k.2 name (ctx.dependencies.getD []) _ srv2 h2 k
      (by rw [lookupA_upsert_self]; rfl)
  cases hst2 : lookupA srv2 k with
  | none => rw [hst2] at hks; exact absurd hks (by simp)
  | some st2 =>
    have hif : (if (false : Bool) then some srv
        else setFromContext k name ctx false srv) = some srv2 := by
      rw [if_neg (by simp), hsfc]
    have hpath : createFailurePath k name ctx false false srv =
        some (upsert srv2 k
            { st2 with createTaskList := eraseKey st2.createTaskList name },
          some ⟨CompOp.compDelete, name, true⟩) := by
      unfold createFailurePath
      rw [hif, Option.some_bind, hst2, Option.map_some']
      rfl
    obtain ⟨stx, hstx, hA, hD, _⟩ := addDependents_fields k.1 k.2 name
      (ctx.dependencies.getD []) _ srv2 h2 k st2 hst2
    rw [lookupA_upsert_self] at hstx
    injection hstx with hstx
    refine ⟨_, _, hpath, lookupA_upsert_self _ _ _, ?_, ?_, ?_, ?_⟩
    · show lookupA st2.resourceAdapters name = some (some a)
      rw [hA, ← hstx]
      show lookupA (upsert st0.resourceAdapters name ctx.resourceAdapter) name =
        some (some a)
      rw [lookupA_upsert_self, hadapter]
    · show lookupA st2.directResourceDependents name = some (ctx.dependents.getD [])
      rw [hD, ← hstx]
      show lookupA (upsert st0.directResourceDependents name
        (ctx.dependents.getD [])) name = some (ctx.dependents.getD [])
      rw [lookupA_upsert_self]
    · exact lookupA_eraseKey_self _ _
    · intro d hd
      obtain ⟨sty, hsty, hmem⟩ := addDependents_edges k.1 k.2 name
        (ctx.dependencies.getD []) _ srv2 h2 d hd
      by_cases hkk : (d.plugin, d.resourceType) = k
      · rw [hkk]
        refine ⟨{ st2 with createTaskList := eraseKey st2.createTaskList name },
          lookupA_upsert_self _ _ _, ?_⟩
        rw [hkk, hst2] at hsty
        injection hsty with hsty
        subst hsty
        exact hmem
      · refine ⟨sty, ?_, hmem⟩
        rw [lookupA_upsert_ne _ _ _ _ hkk]
        exact hsty

/-- Witness for C3: a two-manager server where the network manager's create
of "alice" fails after the adapter-creation step produced adapter 3, one
wallet dependency and one wallet child. -/
theorem claim_C3_create_failure_witness :
    (lookupA srvTwo keyNet = some initialState) ∧
    (ctxAlice.resourceAdapter = some 3) ∧
    (∃ srv' st',
      createFailurePath keyNet "alice" ctxAlice false false srvTwo =
        some (srv', some ⟨CompOp.compDelete, "alice", true⟩) ∧
      lookupA srv' keyNet = some st' ∧
      lookupA st'.resourceAdapters "alice" = some (some 3) ∧
      lookupA st'.directResourceDependents "alice" =
        some (ctxAlice.dependents.getD []) ∧
      lookupA st'.createTaskList "alice" = none ∧
      ∀ d ∈ ctxAlice.dependencies.getD [],
        edgeIn srv' (d.plugin, d.resourceType) d.name
          ⟨keyNet.1, keyNet.2, "alice"⟩) :=
  ⟨by decide, by decide,
   claim_C3_create_failure keyNet "alice" ctxAlice srvTwo 3 initialState
     (by decide) (by decide) (by decide)⟩

end NeoOne
